import Mathlib

/-!
Configuration headers of iot-lighthouse.

The repository fragment is two C preprocessor headers,
`BLE_Beacon/beacon_secrets.h` and `LoRaWAN/secrets_template.h`.  They hold no
functions: what they "do" is what the C preprocessor does with them.  The
embedding therefore has two layers.

* The text of each header, line by line, as it stands in the repository.
* The translation phases of the preprocessor that the headers exercise:
  line splicing, comment removal, recognition of directives, conditional
  inclusion by `#ifndef`/`#ifdef`/`#endif`, and the table of object-like
  macros built by `#define`/`#undef`.

Every property below is evaluated on the macro table computed from the
header text.
-/

namespace IotLighthouse

/-! ## Header text -/

/-- The lines of `src/BLE_Beacon/beacon_secrets.h`, cut at its newlines.  The
file ends with an empty line and a newline, hence the two empty entries. -/
def beacon_secrets_h : List String := [
  "/*",
  " * Beacon Secrets/Configuration",
  " * ",
  " * This file contains beacon-specific configuration.",
  " * For now it\x27s minimal, but can be extended for future features",
  " * like multiple beacon support, custom advertising data, etc.",
  " */",
  "",
  "#ifndef BEACON_SECRETS_H",
  "#define BEACON_SECRETS_H",
  "",
  "// ====== Beacon Identification ======",
  "// Change this to identify your beacon in a multi-beacon system",
  "#define BEACON_ID \"DogHowler\"",
  "",
  "// ====== Optional Features ======",
  "// Uncomment to enable:",
  "// #define ENABLE_STATUS_LED        // Enable status LED blinking",
  "// #define ENABLE_SERIAL_DEBUG      // Enhanced serial output (default is on)",
  "",
  "#endif // BEACON_SECRETS_H",
  "",
  ""
]

/-- The lines of `src/LoRaWAN/secrets_template.h`, cut at its newlines; the
file has no newline after its last line.  The braces of the three initializer
lists are written with their character codes (`\x7b`, `\x7d`). -/
def secrets_template_h : List String := [
  "/*",
  " * Secrets Configuration",
  " * ",
  " * IMPORTANT: Copy this file to secrets.h and update with your actual credentials",
  " * The secrets.h file is ignored by git to keep your credentials private",
  " * ",
  " * Get your LoRaWAN credentials from:",
  " * The Things Network Console > Applications > Your App > End Devices",
  " */",
  "",
  "#ifndef SECRETS_H",
  "#define SECRETS_H",
  "",
  "// ====== LoRaWAN OTAA Credentials ======",
  "// DevEUI - Device EUI (8 bytes)",
  "#define LORAWAN_DEV_EUI \x7b 0x70, 0xB3, 0xD5, 0x7E, 0xD0, 0x07, 0x43, 0x59 \x7d",
  "",
  "// AppEUI - Application EUI (8 bytes) ",
  "#define LORAWAN_APP_EUI \x7b 0x00, 0x00, 0x00, 0x00, 0x00, 0x00, 0x00, 0x00 \x7d",
  "",
  "// AppKey - Application Key (16 bytes)",
  "#define LORAWAN_APP_KEY \x7b 0xCC, 0x4E, 0xEA, 0x15, 0x71, 0xB5, 0x82, 0x99, 0x35, 0x3C, 0xD1, 0x5D, 0x12, 0x6E, 0xDA, 0x5D \x7d",
  "",
  "// ====== BLE Beacon Configuration ======",
  "// Beacon MAC Address - Replace with your beacon\x27s address",
  "// Format: \"AA:BB:CC:DD:EE:FF\" or leave as \"00:00:00:00:00:00\" if not using beacon tracking",
  "#define BEACON_MAC_ADDRESS \"00:00:00:00:00:00\"",
  "",
  "#endif // SECRETS_H"
]

/-- The characters of a header: its lines joined by newlines. -/
def headerChars (hdr : List String) : List Char :=
  List.intercalate ['\n'] (hdr.map String.toList)

/-! ## Translation phases -/

/-- Phase 2: a backslash immediately followed by a newline is deleted. -/
def spliceLines : List Char → List Char
  | [] => []
  | '\\' :: '\n' :: cs => spliceLines cs
  | c :: cs => c :: spliceLines cs

/-- Lexical context while scanning for comments. -/
inductive LexMode where
  | code
  | str
  | strEsc
  | chr
  | chrEsc
  | block
  | line
  deriving DecidableEq, Repr

/-- Phase 3, comment removal.  A block comment becomes one space, a line
comment is dropped up to (not including) its newline, and comment openers
inside string or character literals are ordinary characters. -/
def stripComments : LexMode → List Char → List Char
  | _, [] => []
  | .code, '/' :: '*' :: cs => ' ' :: stripComments .block cs
  | .code, '/' :: '/' :: cs => ' ' :: stripComments .line cs
  | .code, '"' :: cs => '"' :: stripComments .str cs
  | .code, '\'' :: cs => '\'' :: stripComments .chr cs
  | .code, c :: cs => c :: stripComments .code cs
  | .str, '\\' :: cs => '\\' :: stripComments .strEsc cs
  | .str, '"' :: cs => '"' :: stripComments .code cs
  | .str, '\n' :: cs => '\n' :: stripComments .code cs
  | .str, c :: cs => c :: stripComments .str cs
  | .strEsc, c :: cs => c :: stripComments .str cs
  | .chr, '\\' :: cs => '\\' :: stripComments .chrEsc cs
  | .chr, '\'' :: cs => '\'' :: stripComments .code cs
  | .chr, '\n' :: cs => '\n' :: stripComments .code cs
  | .chr, c :: cs => c :: stripComments .chr cs
  | .chrEsc, c :: cs => c :: stripComments .chr cs
  | .block, '*' :: '/' :: cs => stripComments .code cs
  | .block, _ :: cs => stripComments .block cs
  | .line, '\n' :: cs => '\n' :: stripComments .code cs
  | .line, _ :: cs => stripComments .line cs

/-- Cut a character sequence at each occurrence of a separator. -/
def splitOnChar (sep : Char) : List Char → List (List Char)
  | [] => [[]]
  | c :: cs =>
    match splitOnChar sep cs with
    | [] => if c = sep then [[], []] else [[c]]
    | l :: ls => if c = sep then [] :: l :: ls else (c :: l) :: ls

/-- Cut a character sequence at its newlines. -/
def splitLines (cs : List Char) : List (List Char) := splitOnChar '\n' cs

/-- Horizontal white space inside a line. -/
def isBlank (c : Char) : Bool := c = ' ' || c = '\t'

/-- A character that may occur in an identifier. -/
def isIdentChar (c : Char) : Bool := c.isAlphanum || c = '_'

/-- Remove leading white space. -/
def dropBlanks (cs : List Char) : List Char := cs.dropWhile isBlank

/-- Remove leading and trailing white space. -/
def trimBlanks (cs : List Char) : List Char :=
  (dropBlanks (dropBlanks cs).reverse).reverse

/-- One logical line of a header after comment removal. -/
inductive Directive where
  | ifndef (name : String)
  | ifdef (name : String)
  | define (name : String) (body : String)
  | undef (name : String)
  | endif
  | text (line : String)
  deriving DecidableEq, Repr

/-- An identifier followed by nothing but white space. -/
def soleIdent (cs : List Char) : Option String :=
  match cs.span isIdentChar with
  | (name, rest) =>
    if name.isEmpty then none
    else if (dropBlanks rest).isEmpty then some (String.mk name) else none

/-- Recognise the directive on a line.  Function-like macros, `#if`,
`#else`, `#include` and the other directives that the two headers do not use
are rejected (`none`). -/
def parseLine (ln : List Char) : Option Directive :=
  match dropBlanks ln with
  | '#' :: rest =>
    match (dropBlanks rest).span isIdentChar with
    | (kw, args) =>
      let arg := dropBlanks args
      if kw = "ifndef".toList then (soleIdent arg).map Directive.ifndef
      else if kw = "ifdef".toList then (soleIdent arg).map Directive.ifdef
      else if kw = "undef".toList then (soleIdent arg).map Directive.undef
      else if kw = "endif".toList then
        if arg.isEmpty then some Directive.endif else none
      else if kw = "define".toList then
        match arg.span isIdentChar with
        | (name, body) =>
          if name.isEmpty then none
          else if body.head? = some '(' then none
          else some (Directive.define (String.mk name) (String.mk (trimBlanks body)))
      else if kw.isEmpty && arg.isEmpty then some (Directive.text "")
      else none
  | other => some (Directive.text (String.mk other))

/-- The header after phases 2 and 3. -/
def strippedChars (hdr : List String) : List Char :=
  stripComments LexMode.code (spliceLines (headerChars hdr))

/-- The directives of a header, in order; `none` when a line is not
understood. -/
def parseHeader (hdr : List String) : Option (List Directive) :=
  (splitLines (strippedChars hdr)).mapM parseLine

/-! ## Conditional inclusion and the macro table -/

/-- The object-like macros defined so far, oldest first: name and replacement
text. -/
abbrev MacroTable := List (String × String)

/-- The replacement text of a macro, if it is defined. -/
def lookupMacro (t : MacroTable) (name : String) : Option String :=
  (t.find? fun p => p.1 = name).map Prod.snd

/-- What `#ifdef name` tests. -/
def isDefined (t : MacroTable) (name : String) : Bool :=
  (lookupMacro t name).isSome

/-- The effect of `#define name body`.  Defining an undefined name adds it;
repeating an identical definition changes nothing; a different definition of
a name that is already defined is rejected, as the language requires. -/
def defineMacro (t : MacroTable) (name body : String) : Option MacroTable :=
  match lookupMacro t name with
  | none => some (t ++ [(name, body)])
  | some old => if old = body then some t else none

/-- The effect of `#undef name`. -/
def undefMacro (t : MacroTable) (name : String) : MacroTable :=
  t.filter fun p => p.1 ≠ name

/-- Preprocessor state: the macro table and, innermost first, whether each
open conditional group is being taken. -/
structure PPState where
  macros : MacroTable
  conds : List Bool
  deriving DecidableEq, Repr

/-- Lines are processed only when every enclosing group is taken. -/
def PPState.active (s : PPState) : Bool := s.conds.all id

/-- Process one line. -/
def step (s : PPState) : Directive → Option PPState
  | Directive.ifndef n =>
    some { s with conds := (s.active && !isDefined s.macros n) :: s.conds }
  | Directive.ifdef n =>
    some { s with conds := (s.active && isDefined s.macros n) :: s.conds }
  | Directive.endif =>
    match s.conds with
    | [] => none
    | _ :: cs => some { s with conds := cs }
  | Directive.define n b =>
    if s.active then
      (defineMacro s.macros n b).map fun m => { s with macros := m }
    else some s
  | Directive.undef n =>
    if s.active then some { s with macros := undefMacro s.macros n } else some s
  | Directive.text _ => some s

/-- Process the lines of a header in order. -/
def run : List Directive → PPState → Option PPState
  | [], s => some s
  | d :: ds, s => (step s d).bind (run ds)

/-- The macro table after `#include`-ing a header in a translation unit whose
table was `t`.  `none` when the header is rejected: an unknown directive, a
conflicting redefinition, or unbalanced conditionals. -/
def includeHeader (hdr : List String) (t : MacroTable) : Option MacroTable :=
  match parseHeader hdr with
  | none => none
  | some ds =>
    match run ds { macros := t, conds := [] } with
    | some { macros := m, conds := [] } => some m
    | _ => none

/-- The names a macro table defines, oldest first. -/
def macroNames (t : MacroTable) : List String := t.map Prod.fst

/-- The replacement text a header, included on its own, gives to a name. -/
def macroBody (hdr : List String) (name : String) : Option String :=
  (includeHeader hdr []).bind fun t => lookupMacro t name

/-- Whether a name is a defined macro after including a header on its own, in
a translation unit with no macro defined beforehand. -/
def featureEnabled (hdr : List String) (name : String) : Option Bool :=
  (includeHeader hdr []).map fun t => isDefined t name

/-! ## Reading replacement texts -/

/-- The contents of a replacement text that is one string literal without
escape sequences: the characters between its two double quotes. -/
def stringLiteral (body : String) : Option (List Char) :=
  match body.toList with
  | '"' :: rest =>
    match rest.reverse with
    | '"' :: inner =>
      if inner.all fun c => c ≠ '"' && c ≠ '\\' && c ≠ '\n' then some inner.reverse
      else none
    | _ => none
  | _ => none

/-- The elements of a replacement text that is a brace initializer list: the
text between the braces cut at its commas, each piece trimmed.  One trailing
comma is allowed; an empty element otherwise is rejected. -/
def initializerElements (body : String) : Option (List (List Char)) :=
  match trimBlanks body.toList with
  | '{' :: rest =>
    match rest.reverse with
    | '}' :: inner =>
      let parts := (splitOnChar ',' inner.reverse).map trimBlanks
      let parts := if parts.getLast? = some [] then parts.dropLast else parts
      if parts.all fun p => !p.isEmpty then some parts else none
    | _ => none
  | _ => none

/-- The value of a digit in bases up to sixteen. -/
def digitValue (c : Char) : Option Nat :=
  if '0' ≤ c ∧ c ≤ '9' then some (c.toNat - '0'.toNat)
  else if 'a' ≤ c ∧ c ≤ 'f' then some (c.toNat - 'a'.toNat + 10)
  else if 'A' ≤ c ∧ c ≤ 'F' then some (c.toNat - 'A'.toNat + 10)
  else none

/-- A hexadecimal digit. -/
def isHexDigit (c : Char) : Bool := (digitValue c).isSome

/-- The number written by a digit sequence in a base, most significant digit
first; `none` when a character is not a digit of that base. -/
def digitsValue (base : Nat) : Nat → List Char → Option Nat
  | acc, [] => some acc
  | acc, c :: cs =>
    match digitValue c with
    | some d => if d < base then digitsValue base (acc * base + d) cs else none
    | none => none

/-- The value of a C integer literal without suffix: `0x`/`0X` hexadecimal,
leading-`0` octal, or decimal. -/
def intLiteral : List Char → Option Nat
  | '0' :: 'x' :: ds => if ds.isEmpty then none else digitsValue 16 0 ds
  | '0' :: 'X' :: ds => if ds.isEmpty then none else digitsValue 16 0 ds
  | '0' :: ds => digitsValue 8 0 ds
  | ds => if ds.isEmpty then none else digitsValue 10 0 ds

/-- The values of the elements of an initializer list of integer literals. -/
def initializerValues (elems : Option (List (List Char))) : Option (List Nat) :=
  elems.bind fun es => es.mapM intLiteral

/-- The octets of a MAC address in the format the template documents,
`"AA:BB:CC:DD:EE:FF"`: six groups of two hexadecimal digits between colons. -/
def macOctets (s : List Char) : Option (List Nat) :=
  let groups := splitOnChar ':' s
  if groups.length = 6 ∧ groups.all (fun g => g.length = 2) then
    groups.mapM (digitsValue 16 0)
  else none

/-- Whether `pat` occurs in `cs` as a contiguous run of characters. -/
def occursIn (pat : List Char) : List Char → Bool
  | [] => pat.isEmpty
  | c :: cs => pat.isPrefixOf (c :: cs) || occursIn pat cs

/-- Remove the `// ` that comments out a line. -/
def uncomment (ln : String) : String :=
  match ln.toList with
  | '/' :: '/' :: ' ' :: rest => String.mk rest
  | _ => ln

/-- The header with line `i` (counted from 0) uncommented. -/
def uncommentLine (i : Nat) (hdr : List String) : List String :=
  hdr.modify uncomment i

/-! ## The macros of the two headers -/

/-- Macro `BEACON_ID` of `beacon_secrets.h`: the contents of its string literal. -/
def BEACON_ID : Option (List Char) :=
  (macroBody beacon_secrets_h "BEACON_ID").bind stringLiteral

/-- Macro `LORAWAN_DEV_EUI` of `secrets_template.h`: the elements of its
initializer list. -/
def LORAWAN_DEV_EUI : Option (List (List Char)) :=
  (macroBody secrets_template_h "LORAWAN_DEV_EUI").bind initializerElements

/-- Macro `LORAWAN_APP_EUI` of `secrets_template.h`: the elements of its
initializer list. -/
def LORAWAN_APP_EUI : Option (List (List Char)) :=
  (macroBody secrets_template_h "LORAWAN_APP_EUI").bind initializerElements

/-- Macro `LORAWAN_APP_KEY` of `secrets_template.h`: the elements of its
initializer list. -/
def LORAWAN_APP_KEY : Option (List (List Char)) :=
  (macroBody secrets_template_h "LORAWAN_APP_KEY").bind initializerElements

/-- Macro `BEACON_MAC_ADDRESS` of `secrets_template.h`: the contents of its string
literal. -/
def BEACON_MAC_ADDRESS : Option (List Char) :=
  (macroBody secrets_template_h "BEACON_MAC_ADDRESS").bind stringLiteral

/-! ## Guarded headers as lists of definitions -/

/-- Apply a list of definitions in order. -/
def defineAll : MacroTable → List (String × String) → Option MacroTable
  | t, [] => some t
  | t, (n, b) :: ds => (defineMacro t n b).bind fun t1 => defineAll t1 ds

/-- The definitions `beacon_secrets.h` makes when its guard is open, as read
off its directives (`includeHeader_beacon_secrets_h` ties it to the text). -/
def beaconDefs : MacroTable :=
  [("BEACON_SECRETS_H", ""), ("BEACON_ID", "\"DogHowler\"")]

/-- The definitions `secrets_template.h` makes when its guard is open, as read
off its directives (`includeHeader_secrets_template_h` ties it to the text). -/
def secretsDefs : MacroTable :=
  [("SECRETS_H", ""),
   ("LORAWAN_DEV_EUI", "\x7b 0x70, 0xB3, 0xD5, 0x7E, 0xD0, 0x07, 0x43, 0x59 \x7d"),
   ("LORAWAN_APP_EUI", "\x7b 0x00, 0x00, 0x00, 0x00, 0x00, 0x00, 0x00, 0x00 \x7d"),
   ("LORAWAN_APP_KEY",
    "\x7b 0xCC, 0x4E, 0xEA, 0x15, 0x71, 0xB5, 0x82, 0x99, 0x35, 0x3C, 0xD1, 0x5D, 0x12, 0x6E, 0xDA, 0x5D \x7d"),
   ("BEACON_MAC_ADDRESS", "\"00:00:00:00:00:00\"")]

/-! ## Lemmas on the macro table -/

set_option maxRecDepth 100000

theorem lookupMacro_append (t u : MacroTable) (m : String) :
    lookupMacro (t ++ u) m = (lookupMacro t m).or (lookupMacro u m) := by
  unfold lookupMacro
  rw [List.find?_append]
  cases List.find? (fun p => decide (p.1 = m)) t <;> simp

theorem lookupMacro_defineMacro {t t1 : MacroTable} {n b : String}
    (h : defineMacro t n b = some t1) (m : String) :
    lookupMacro t1 m = if m = n then some b else lookupMacro t m := by
  unfold defineMacro at h
  cases hl : lookupMacro t n with
  | none =>
    rw [hl] at h
    simp only [Option.some.injEq] at h
    subst h
    rw [lookupMacro_append]
    by_cases hm : m = n
    · subst hm
      rw [hl]
      simp [lookupMacro]
    · have : ¬ n = m := fun e => hm e.symm
      simp [hm, lookupMacro, this]
  | some old =>
    rw [hl] at h
    simp only at h
    by_cases ho : old = b
    · simp only [ho, if_true, Option.some.injEq] at h
      subst h
      by_cases hm : m = n
      · subst hm; simp [hl, ho]
      · simp [hm]
    · simp [ho] at h

theorem parseHeader_beacon_secrets_h :
    parseHeader beacon_secrets_h = some [
      Directive.text "", Directive.text "",
      Directive.ifndef "BEACON_SECRETS_H",
      Directive.define "BEACON_SECRETS_H" "",
      Directive.text "", Directive.text "", Directive.text "",
      Directive.define "BEACON_ID" "\"DogHowler\"",
      Directive.text "", Directive.text "", Directive.text "", Directive.text "",
      Directive.text "", Directive.text "",
      Directive.endif, Directive.text "", Directive.text ""] := by decide

theorem includeHeader_beacon_secrets_h (t : MacroTable) :
    includeHeader beacon_secrets_h t =
      if isDefined t "BEACON_SECRETS_H" then some t else defineAll t beaconDefs := by
  unfold includeHeader
  rw [parseHeader_beacon_secrets_h]
  by_cases hg : isDefined t "BEACON_SECRETS_H" = true
  · simp [run, step, PPState.active, hg]
  · simp only [Bool.not_eq_true] at hg
    cases h1 : defineMacro t "BEACON_SECRETS_H" "" with
    | none => simp [run, step, PPState.active, hg, beaconDefs, defineAll, h1]
    | some t1 =>
      cases h2 : defineMacro t1 "BEACON_ID" "\"DogHowler\"" with
      | none => simp [run, step, PPState.active, hg, beaconDefs, defineAll, h1, h2]
      | some t2 => simp [run, step, PPState.active, hg, beaconDefs, defineAll, h1, h2]

theorem parseHeader_secrets_template_h :
    parseHeader secrets_template_h = some [
      Directive.text "", Directive.text "",
      Directive.ifndef "SECRETS_H",
      Directive.define "SECRETS_H" "",
      Directive.text "", Directive.text "", Directive.text "",
      Directive.define "LORAWAN_DEV_EUI"
        "\x7b 0x70, 0xB3, 0xD5, 0x7E, 0xD0, 0x07, 0x43, 0x59 \x7d",
      Directive.text "", Directive.text "",
      Directive.define "LORAWAN_APP_EUI"
        "\x7b 0x00, 0x00, 0x00, 0x00, 0x00, 0x00, 0x00, 0x00 \x7d",
      Directive.text "", Directive.text "",
      Directive.define "LORAWAN_APP_KEY"
        "\x7b 0xCC, 0x4E, 0xEA, 0x15, 0x71, 0xB5, 0x82, 0x99, 0x35, 0x3C, 0xD1, 0x5D, 0x12, 0x6E, 0xDA, 0x5D \x7d",
      Directive.text "", Directive.text "", Directive.text "", Directive.text "",
      Directive.define "BEACON_MAC_ADDRESS" "\"00:00:00:00:00:00\"",
      Directive.text "", Directive.endif] := by decide

theorem includeHeader_secrets_template_h (t : MacroTable) :
    includeHeader secrets_template_h t =
      if isDefined t "SECRETS_H" then some t else defineAll t secretsDefs := by
  unfold includeHeader
  rw [parseHeader_secrets_template_h]
  by_cases hg : isDefined t "SECRETS_H" = true
  · simp [run, step, PPState.active, hg]
  · simp only [Bool.not_eq_true] at hg
    cases h1 : defineMacro t "SECRETS_H" "" with
    | none => simp [run, step, PPState.active, hg, secretsDefs, defineAll, h1]
    | some t1 =>
      cases h2 : defineMacro t1 "LORAWAN_DEV_EUI"
          "\x7b 0x70, 0xB3, 0xD5, 0x7E, 0xD0, 0x07, 0x43, 0x59 \x7d" with
      | none => simp [run, step, PPState.active, hg, secretsDefs, defineAll, h1, h2]
      | some t2 =>
        cases h3 : defineMacro t2 "LORAWAN_APP_EUI"
            "\x7b 0x00, 0x00, 0x00, 0x00, 0x00, 0x00, 0x00, 0x00 \x7d" with
        | none => simp [run, step, PPState.active, hg, secretsDefs, defineAll, h1, h2, h3]
        | some t3 =>
          cases h4 : defineMacro t3 "LORAWAN_APP_KEY"
              "\x7b 0xCC, 0x4E, 0xEA, 0x15, 0x71, 0xB5, 0x82, 0x99, 0x35, 0x3C, 0xD1, 0x5D, 0x12, 0x6E, 0xDA, 0x5D \x7d" with
          | none =>
            simp [run, step, PPState.active, hg, secretsDefs, defineAll, h1, h2, h3, h4]
          | some t4 =>
            cases h5 : defineMacro t4 "BEACON_MAC_ADDRESS" "\"00:00:00:00:00:00\"" with
            | none =>
              simp [run, step, PPState.active, hg, secretsDefs, defineAll, h1, h2, h3, h4, h5]
            | some t5 =>
              simp [run, step, PPState.active, hg, secretsDefs, defineAll, h1, h2, h3, h4, h5]

/-- A definition that succeeds keeps every earlier definition. -/
theorem lookupMacro_defineMacro_keep {t t1 : MacroTable} {n b : String}
    (h : defineMacro t n b = some t1) {m v : String} (hm : lookupMacro t m = some v) :
    lookupMacro t1 m = some v := by
  rw [lookupMacro_defineMacro h]
  by_cases e : m = n
  · subst e
    unfold defineMacro at h
    rw [hm] at h
    by_cases ho : v = b
    · simp [ho]
    · simp [ho] at h
  · simp [e, hm]

theorem lookupMacro_defineAll_keep {ds : MacroTable} :
    ∀ {t t1 : MacroTable}, defineAll t ds = some t1 →
      ∀ {m v : String}, lookupMacro t m = some v → lookupMacro t1 m = some v := by
  induction ds with
  | nil =>
    intro t t1 h m v hm
    simp only [defineAll, Option.some.injEq] at h
    subst h
    exact hm
  | cons d ds ih =>
    intro t t1 h m v hm
    obtain ⟨n, b⟩ := d
    simp only [defineAll] at h
    cases h1 : defineMacro t n b with
    | none => simp [h1] at h
    | some t2 =>
      rw [h1] at h
      exact ih h (lookupMacro_defineMacro_keep h1 hm)

/-- After a list of definitions succeeds, a name is looked up first among the
new definitions, then in the old table. -/
theorem lookupMacro_defineAll {ds : MacroTable} :
    ∀ {t t1 : MacroTable}, defineAll t ds = some t1 →
      ∀ m : String, lookupMacro t1 m = (lookupMacro ds m).or (lookupMacro t m) := by
  induction ds with
  | nil =>
    intro t t1 h m
    simp only [defineAll, Option.some.injEq] at h
    subst h
    simp [lookupMacro]
  | cons d ds ih =>
    intro t t1 h m
    obtain ⟨n, b⟩ := d
    simp only [defineAll] at h
    cases h1 : defineMacro t n b with
    | none => simp [h1] at h
    | some t2 =>
      rw [h1] at h
      by_cases e : m = n
      · subst e
        have h2 : lookupMacro t2 m = some b := by
          rw [lookupMacro_defineMacro h1]; simp
        rw [lookupMacro_defineAll_keep h h2]
        simp [lookupMacro]
      · rw [ih h m, lookupMacro_defineMacro h1 m]
        have e2 : ¬ n = m := fun x => e x.symm
        simp [e, e2, lookupMacro, List.find?]

/-- A name that a table defines is one of its names. -/
theorem mem_macroNames_of_lookupMacro {t : MacroTable} {m v : String}
    (h : lookupMacro t m = some v) : m ∈ macroNames t := by
  unfold lookupMacro at h
  cases hf : List.find? (fun p => decide (p.1 = m)) t with
  | none => simp [hf] at h
  | some p =>
    have h1 := List.find?_some hf
    have h2 := List.mem_of_find?_eq_some hf
    simp only [decide_eq_true_eq] at h1
    unfold macroNames
    exact List.mem_map.mpr ⟨p, h2, h1⟩

/-- No name is defined by both headers. -/
theorem beaconDefs_secretsDefs_disjoint (m : String) :
    lookupMacro beaconDefs m = none ∨ lookupMacro secretsDefs m = none := by
  cases hb : lookupMacro beaconDefs m with
  | none => exact Or.inl rfl
  | some v =>
    right
    have hm := mem_macroNames_of_lookupMacro hb
    simp only [macroNames, beaconDefs, List.map, List.mem_cons, List.mem_singleton,
      List.not_mem_nil, or_false] at hm
    rcases hm with rfl | rfl <;> decide

/-- Including a guarded header whose guard is already defined changes
nothing; otherwise its definitions are looked up before the old ones. -/
theorem lookupMacro_include_guarded {hdr : List String} {g : String} {defs : MacroTable}
    (hinc : ∀ t, includeHeader hdr t =
      if isDefined t g then some t else defineAll t defs)
    {t t1 : MacroTable} (h : includeHeader hdr t = some t1) (m : String) :
    lookupMacro t1 m =
      if isDefined t g then lookupMacro t m
      else (lookupMacro defs m).or (lookupMacro t m) := by
  rw [hinc] at h
  by_cases hg : isDefined t g = true
  · simp only [hg, if_true, Option.some.injEq] at h
    subst h
    simp [hg]
  · simp only [hg] at h
    simp only [hg]
    exact lookupMacro_defineAll h m

/-- Including a guarded header twice in a row is the same as including it
once. -/
theorem includeHeader_guarded_idem {hdr : List String} {g : String} {defs : MacroTable}
    (hinc : ∀ t, includeHeader hdr t =
      if isDefined t g then some t else defineAll t defs)
    (hg : (lookupMacro defs g).isSome = true)
    {t t1 : MacroTable} (h : includeHeader hdr t = some t1) :
    includeHeader hdr t1 = some t1 := by
  have hl := lookupMacro_include_guarded hinc h g
  have hd : (lookupMacro t1 g).isSome = true := by
    rw [hl]
    by_cases ht : isDefined t g = true
    · rw [if_pos ht]
      exact ht
    · rw [if_neg ht]
      cases hx : lookupMacro defs g with
      | none => simp [hx] at hg
      | some v => simp
  have hd : isDefined t1 g = true := hd
  rw [hinc, hd]
  simp

/-- Whatever the table before, the two headers included in either order
give every name the same replacement text. -/
theorem include_order_lookup {t tb tbs ts tsb : MacroTable}
    (hb : includeHeader beacon_secrets_h t = some tb)
    (hbs : includeHeader secrets_template_h tb = some tbs)
    (hs : includeHeader secrets_template_h t = some ts)
    (hsb : includeHeader beacon_secrets_h ts = some tsb) (m : String) :
    lookupMacro tbs m = lookupMacro tsb m := by
  have lb := lookupMacro_include_guarded includeHeader_beacon_secrets_h hb
  have lbs := lookupMacro_include_guarded includeHeader_secrets_template_h hbs
  have ls := lookupMacro_include_guarded includeHeader_secrets_template_h hs
  have lsb := lookupMacro_include_guarded includeHeader_beacon_secrets_h hsb
  have g1 : isDefined tb "SECRETS_H" = isDefined t "SECRETS_H" := by
    unfold isDefined
    rw [lb]
    have : lookupMacro beaconDefs "SECRETS_H" = none := by decide
    split <;> simp [this]
  have g2 : isDefined ts "BEACON_SECRETS_H" = isDefined t "BEACON_SECRETS_H" := by
    unfold isDefined
    rw [ls]
    have : lookupMacro secretsDefs "BEACON_SECRETS_H" = none := by decide
    split <;> simp [this]
  rw [lbs, lsb, g1, g2, lb, ls]
  rcases beaconDefs_secretsDefs_disjoint m with h | h <;>
    by_cases ha : isDefined t "BEACON_SECRETS_H" = true <;>
    by_cases hc : isDefined t "SECRETS_H" = true <;>
    simp [h, ha, hc]

/-! ## Properties of `secrets_template.h` -/

/-- C1: `LORAWAN_APP_KEY`, as `secrets_template.h` defines it, expands to a
brace initializer list of exactly 16 comma-separated elements. -/
theorem lorawan_app_key_has_16_elements :
    ∃ elems, LORAWAN_APP_KEY = some elems ∧ elems.length = 16 :=
  ⟨["0xCC".toList, "0x4E".toList, "0xEA".toList, "0x15".toList, "0x71".toList,
    "0xB5".toList, "0x82".toList, "0x99".toList, "0x35".toList, "0x3C".toList,
    "0xD1".toList, "0x5D".toList, "0x12".toList, "0x6E".toList, "0xDA".toList,
    "0x5D".toList], by decide, by decide⟩

/-- C2: `LORAWAN_DEV_EUI`, as `secrets_template.h` defines it, expands to a
brace initializer list of exactly 8 comma-separated elements. -/
theorem lorawan_dev_eui_has_8_elements :
    ∃ elems, LORAWAN_DEV_EUI = some elems ∧ elems.length = 8 :=
  ⟨["0x70".toList, "0xB3".toList, "0xD5".toList, "0x7E".toList, "0xD0".toList,
    "0x07".toList, "0x43".toList, "0x59".toList], by decide, by decide⟩

/-- C3: `LORAWAN_APP_EUI`, as `secrets_template.h` defines it, expands to a
brace initializer list of exactly 8 comma-separated elements. -/
theorem lorawan_app_eui_has_8_elements :
    ∃ elems, LORAWAN_APP_EUI = some elems ∧ elems.length = 8 :=
  ⟨List.replicate 8 "0x00".toList, by decide, by decide⟩

/-- C4: the string `BEACON_MAC_ADDRESS` of `secrets_template.h` is 17
characters long; the characters at positions 2, 5, 8, 11 and 14 are colons and
every other position holds a hexadecimal digit, so there are exactly five
colons and they cut the string into six groups of exactly two hexadecimal
digits. -/
theorem beacon_mac_address_format :
    ∃ s, BEACON_MAC_ADDRESS = some s ∧ s.length = 17 ∧
      (∀ i, i < 17 →
        (i ∈ [2, 5, 8, 11, 14] → s[i]? = some ':') ∧
        (i ∉ [2, 5, 8, 11, 14] → s[i]?.map isHexDigit = some true)) ∧
      s.count ':' = 5 ∧
      (splitOnChar ':' s).length = 6 ∧
      ∀ g ∈ splitOnChar ':' s, g.length = 2 ∧ g.all isHexDigit = true :=
  ⟨"00:00:00:00:00:00".toList, by decide, by decide, by decide, by decide,
    by decide, by decide⟩

/-- C8: every element of the initializer lists of `LORAWAN_DEV_EUI`,
`LORAWAN_APP_EUI` and `LORAWAN_APP_KEY` is an integer literal whose value `v`
satisfies `0 ≤ v ≤ 255`, hence `v % 256 = v`: it fits an 8-bit unsigned
element unchanged. -/
theorem credential_elements_are_bytes :
    (∃ vs, initializerValues LORAWAN_DEV_EUI = some vs ∧ vs.length = 8 ∧
      ∀ v ∈ vs, 0 ≤ v ∧ v ≤ 255 ∧ v % 256 = v) ∧
    (∃ vs, initializerValues LORAWAN_APP_EUI = some vs ∧ vs.length = 8 ∧
      ∀ v ∈ vs, 0 ≤ v ∧ v ≤ 255 ∧ v % 256 = v) ∧
    (∃ vs, initializerValues LORAWAN_APP_KEY = some vs ∧ vs.length = 16 ∧
      ∀ v ∈ vs, 0 ≤ v ∧ v ≤ 255 ∧ v % 256 = v) :=
  ⟨⟨[0x70, 0xB3, 0xD5, 0x7E, 0xD0, 0x07, 0x43, 0x59], by decide, by decide, by decide⟩,
   ⟨List.replicate 8 0, by decide, by decide, by decide⟩,
   ⟨[0xCC, 0x4E, 0xEA, 0x15, 0x71, 0xB5, 0x82, 0x99, 0x35, 0x3C, 0xD1, 0x5D, 0x12,
     0x6E, 0xDA, 0x5D], by decide, by decide, by decide⟩⟩

/-- C9: the default `BEACON_MAC_ADDRESS` of the template is the string
`"00:00:00:00:00:00"`, the value the comment above it gives for "not using
beacon tracking", and read as six hexadecimal octets every octet is 0. -/
theorem beacon_mac_address_default_is_zero :
    BEACON_MAC_ADDRESS = some "00:00:00:00:00:00".toList ∧
    occursIn "or leave as \"00:00:00:00:00:00\" if not using beacon tracking".toList
      (headerChars secrets_template_h) = true ∧
    ∃ octets, BEACON_MAC_ADDRESS.bind macOctets = some octets ∧ octets.length = 6 ∧
      ∀ o ∈ octets, o = 0 :=
  ⟨by decide, by decide, List.replicate 6 0, by decide, by decide, by decide⟩

/-! ## Properties of `beacon_secrets.h` -/

/-- C5: `BEACON_ID` of `beacon_secrets.h` is a string literal whose contents
are non-empty. -/
theorem beacon_id_nonempty :
    ∃ s, BEACON_ID = some s ∧ s ≠ [] ∧ 1 ≤ s.length :=
  ⟨"DogHowler".toList, by decide, by decide, by decide⟩

/-- C7: after including `beacon_secrets.h` as shipped the macros defined are
exactly `BEACON_SECRETS_H` and `BEACON_ID`; `ENABLE_STATUS_LED` and
`ENABLE_SERIAL_DEBUG` are not defined, each occurring in the file but not in
what is left after comment removal; and each becomes defined when its line is
uncommented. -/
theorem feature_toggles_are_opt_in :
    (includeHeader beacon_secrets_h []).map macroNames
      = some ["BEACON_SECRETS_H", "BEACON_ID"] ∧
    featureEnabled beacon_secrets_h "ENABLE_STATUS_LED" = some false ∧
    featureEnabled beacon_secrets_h "ENABLE_SERIAL_DEBUG" = some false ∧
    occursIn "ENABLE_STATUS_LED".toList (headerChars beacon_secrets_h) = true ∧
    occursIn "ENABLE_SERIAL_DEBUG".toList (headerChars beacon_secrets_h) = true ∧
    occursIn "ENABLE_STATUS_LED".toList (strippedChars beacon_secrets_h) = false ∧
    occursIn "ENABLE_SERIAL_DEBUG".toList (strippedChars beacon_secrets_h) = false ∧
    featureEnabled (uncommentLine 17 beacon_secrets_h) "ENABLE_STATUS_LED" = some true ∧
    featureEnabled (uncommentLine 18 beacon_secrets_h) "ENABLE_SERIAL_DEBUG" = some true :=
  ⟨by decide, by decide, by decide, by decide, by decide, by decide, by decide,
    by decide, by decide⟩

/-! ## The two headers together -/

/-- C10: the two headers define disjoint sets of macro names
(`BEACON_SECRETS_H`, `BEACON_ID` and `SECRETS_H`, `LORAWAN_DEV_EUI`,
`LORAWAN_APP_EUI`, `LORAWAN_APP_KEY`, `BEACON_MAC_ADDRESS`); including both in
either order succeeds, gives every name once, and gives the same names the
same replacement texts, those of the header each comes from; and a header
that has been included can be included again without changing the table.  The
last two facts hold from any starting table, not only the empty one. -/
theorem includes_commute_and_are_idempotent :
    (∃ tb ts tbs tsb,
      includeHeader beacon_secrets_h [] = some tb ∧
      includeHeader secrets_template_h [] = some ts ∧
      macroNames tb = ["BEACON_SECRETS_H", "BEACON_ID"] ∧
      macroNames ts = ["SECRETS_H", "LORAWAN_DEV_EUI", "LORAWAN_APP_EUI",
        "LORAWAN_APP_KEY", "BEACON_MAC_ADDRESS"] ∧
      (∀ m ∈ macroNames tb, m ∉ macroNames ts) ∧
      includeHeader secrets_template_h tb = some tbs ∧
      includeHeader beacon_secrets_h ts = some tsb ∧
      (macroNames tbs).Nodup ∧ (macroNames tsb).Nodup ∧
      List.Perm tbs tsb ∧
      (∀ m, lookupMacro tbs m = lookupMacro tsb m) ∧
      (∀ m, lookupMacro tbs m = (lookupMacro tb m).or (lookupMacro ts m))) ∧
    (∀ t t1, includeHeader beacon_secrets_h t = some t1 →
      includeHeader beacon_secrets_h t1 = some t1) ∧
    (∀ t t1, includeHeader secrets_template_h t = some t1 →
      includeHeader secrets_template_h t1 = some t1) ∧
    (∀ t tb tbs ts tsb,
      includeHeader beacon_secrets_h t = some tb →
      includeHeader secrets_template_h tb = some tbs →
      includeHeader secrets_template_h t = some ts →
      includeHeader beacon_secrets_h ts = some tsb →
      ∀ m, lookupMacro tbs m = lookupMacro tsb m) := by
  have hb : includeHeader beacon_secrets_h [] = some beaconDefs := by decide
  have hs : includeHeader secrets_template_h [] = some secretsDefs := by decide
  have hbs : includeHeader secrets_template_h beaconDefs
      = some (beaconDefs ++ secretsDefs) := by decide
  have hsb : includeHeader beacon_secrets_h secretsDefs
      = some (secretsDefs ++ beaconDefs) := by decide
  refine ⟨⟨beaconDefs, secretsDefs, beaconDefs ++ secretsDefs, secretsDefs ++ beaconDefs,
    hb, hs, by decide, by decide, by decide, hbs, hsb, by decide, by decide,
    List.perm_append_comm, include_order_lookup hb hbs hs hsb, ?_⟩, ?_, ?_, ?_⟩
  · intro m
    rw [lookupMacro_append]
  · intro t t1 h
    exact includeHeader_guarded_idem includeHeader_beacon_secrets_h (by decide) h
  · intro t t1 h
    exact includeHeader_guarded_idem includeHeader_secrets_template_h (by decide) h
  · intro t tb tbs ts tsb h1 h2 h3 h4
    exact include_order_lookup h1 h2 h3 h4

/-- C10 at a concrete table: `beacon_secrets.h` included in an empty
translation unit gives its two definitions, and included again leaves them
as they are. -/
theorem includes_commute_and_are_idempotent_witness :
    includeHeader beacon_secrets_h [] = some beaconDefs ∧
    includeHeader beacon_secrets_h beaconDefs = some beaconDefs :=
  ⟨by decide, includes_commute_and_are_idempotent.2.1 [] beaconDefs (by decide)⟩

end IotLighthouse
